import Mathlib

/-!
Verification development for the A2UI v0.8 Python reference engine
(`renderers/python/src/a2ui/v0_8/`): the per-surface `DataModel`
(`data_model.py`), the `MessageProcessor` surface state machine
(`processor.py`) and the `HTMLRenderer` (`components/html_renderer.py`).

The embedding models Python's dynamically typed JSON-shaped values with the
inductive `PyVal`; Python dicts are insertion-ordered association lists with
string keys (the wire format is JSON, whose object keys are strings).
Fallible Python code (code that can raise) is modelled with `Option`:
`none` models an exception propagating to the caller.  The renderer's
recursion is modelled with an explicit fuel parameter: fuel models the
depth of nested `_render_component` stack frames, and the result `nofuel`
means the computation did not complete within that depth (at every depth,
for every fuel, this models divergence / Python `RecursionError`).
-/

namespace A2UI

/-- Model of a Python value as manipulated by the A2UI engine: `None`,
`str`, `int`, `bool`, `dict` (insertion-ordered, string keys) and `list`. -/
inductive PyVal where
  | vnone : PyVal
  | vstr (s : String) : PyVal
  | vint (n : Int) : PyVal
  | vbool (b : Bool) : PyVal
  | vdict (d : List (String × PyVal)) : PyVal
  | vlist (l : List PyVal) : PyVal

/-- A Python dict with string keys (insertion-ordered association list). -/
abbrev PyDict := List (String × PyVal)

/-- Python `d.get(k)` / `k in d`: first binding of the key, if any. -/
def dictGet {α : Type} : List (String × α) → String → Option α
  | [], _ => none
  | (k, v) :: rest, key => if k = key then some v else dictGet rest key

/-- Python `d[k] = v`: replace in place if the key is present (keeping its
position, as CPython dicts do), otherwise append at the end. -/
def dictSet {α : Type} : List (String × α) → String → α → List (String × α)
  | [], key, v => [(key, v)]
  | (k, w) :: rest, key, v =>
      if k = key then (k, v) :: rest else (k, w) :: dictSet rest key v

/-- Python `del d[k]`: remove the binding of the key. -/
def dictDel {α : Type} : List (String × α) → String → List (String × α)
  | [], _ => []
  | (k, w) :: rest, key => if k = key then rest else (k, w) :: dictDel rest key

/-- Python truthiness (`if x:`) for the modelled values. -/
def pyTruthy : PyVal → Bool
  | .vnone => false
  | .vstr s => s ≠ ""
  | .vint n => n ≠ 0
  | .vbool b => b
  | .vdict d => ¬ d.isEmpty
  | .vlist l => ¬ l.isEmpty

/-- Lower-case hexadecimal digit, used by the string `repr` model. -/
def hexDigit (n : Nat) : Char :=
  if n < 10 then Char.ofNat (48 + n) else Char.ofNat (87 + n)

/-- Two lower-case hexadecimal digits. -/
def hex2 (n : Nat) : String :=
  (hexDigit (n / 16 % 16)).toString ++ (hexDigit (n % 16)).toString

/-- Model of how Python `repr` renders one character of a string literal,
given the chosen quote character: escape the backslash, the quote itself and
the common control characters, pass other characters through. -/
def pyReprChar (q : Char) (c : Char) : String :=
  if c = Char.ofNat 92 then "\\\\"
  else if c = q then "\\" ++ q.toString
  else if c = Char.ofNat 10 then "\\n"
  else if c = Char.ofNat 13 then "\\r"
  else if c = Char.ofNat 9 then "\\t"
  else if c.toNat < 32 ∨ c.toNat = 127 then "\\x" ++ hex2 c.toNat
  else c.toString

/-- Model of Python `repr` on a `str`: single quotes, switching to double
quotes when the string contains a single quote but no double quote. -/
def pyReprStr (s : String) : String :=
  let q : Char :=
    if s.contains (Char.ofNat 39) ∧ ¬ s.contains (Char.ofNat 34)
    then Char.ofNat 34 else Char.ofNat 39
  q.toString ++ String.join (s.toList.map (pyReprChar q)) ++ q.toString

mutual

/-- Model of Python `repr` on the modelled values. -/
def pyRepr : PyVal → String
  | .vnone => "None"
  | .vstr s => pyReprStr s
  | .vint n => toString n
  | .vbool b => if b then "True" else "False"
  | .vdict d => "\x7b" ++ pyReprEntries d ++ "\x7d"
  | .vlist l => "[" ++ pyReprElems l ++ "]"

/-- Comma-separated `repr` of dict entries. -/
def pyReprEntries : List (String × PyVal) → String
  | [] => ""
  | [(k, v)] => pyReprStr k ++ ": " ++ pyRepr v
  | (k, v) :: rest => pyReprStr k ++ ": " ++ pyRepr v ++ ", " ++ pyReprEntries rest

/-- Comma-separated `repr` of list elements. -/
def pyReprElems : List PyVal → String
  | [] => ""
  | [v] => pyRepr v
  | v :: rest => pyRepr v ++ ", " ++ pyReprElems rest

end

/-- Model of Python `str.lower()`, character by character (ASCII case
mapping, which covers every string the engine itself produces). -/
def pyLower (s : String) : String :=
  String.mk (s.toList.map Char.toLower)

/-- Model of Python `str()` on the modelled values: identity on strings,
`repr`-like on everything else (`str(5) = "5"`, `str(True) = "True"`,
`str(None) = "None"`, containers render as their `repr`). -/
def pyStr : PyVal → String
  | .vstr s => s
  | .vnone => "None"
  | .vint n => toString n
  | .vbool b => if b then "True" else "False"
  | .vdict d => pyRepr (.vdict d)
  | .vlist l => pyRepr (.vlist l)

/-- Splitting a character list on the `/` separator, keeping empty pieces:
the model of Python `path.split("/")` (character-level split on the
one-character separator). -/
def splitSeg : List Char → List (List Char)
  | [] => [[]]
  | c :: rest =>
      let r := splitSeg rest
      if c = Char.ofNat 47 then [] :: r
      else
        match r with
        | s :: tail => (c :: s) :: tail
        | [] => [[c]]

/-- Model of `[p for p in path.split("/") if p]`: the non-empty path
segments, in order. -/
def pathParts (p : String) : List String :=
  ((splitSeg p.toList).map (fun l => String.mk l)).filter (fun s => s ≠ "")

namespace DataModel

mutual

/-- Model of `DataModel._contents_to_dict`, iterating the entry list in
order with the accumulated result dict.  An entry that is not a dict makes
Python raise (`entry.get` on a non-dict), modelled as `none`.  Entries whose
`key` is absent or falsy are skipped; the first present variant among
`valueString`, `valueNumber`, `valueBoolean`, `valueMap` wins, and its
payload is stored as-is (`valueMap` payloads are converted recursively by
`convValueMap` and must be lists — iterating a non-list payload raises).
Truthy non-string keys fall outside this string-keyed embedding and are
modelled as `none`. -/
def contentsToDictGo : PyDict → List PyVal → Option PyDict
  | acc, [] => some acc
  | acc, .vdict pairs :: rest =>
      match dictGet pairs ("key") with
      | none => contentsToDictGo acc rest
      | some kv =>
          if pyTruthy kv then
            match kv with
            | .vstr k =>
                match dictGet pairs ("valueString") with
                | some v => contentsToDictGo (dictSet acc k v) rest
                | none =>
                match dictGet pairs ("valueNumber") with
                | some v => contentsToDictGo (dictSet acc k v) rest
                | none =>
                match dictGet pairs ("valueBoolean") with
                | some v => contentsToDictGo (dictSet acc k v) rest
                | none => convValueMap acc k pairs rest
            | _ => none
          else contentsToDictGo acc rest
  | _, _ :: _ => none
termination_by acc l => sizeOf l
decreasing_by all_goals simp_wf <;> omega

/-- Scan of an entry's pairs for the `valueMap` key (the last variant in the
chain of `DataModel._contents_to_dict`): if found with a list payload,
convert it recursively and store the resulting nested dict, then continue
with the remaining entries; if found with a non-list payload, the recursive
iteration raises (`none`); if absent, the entry stores nothing. -/
def convValueMap : PyDict → String → List (String × PyVal) → List PyVal →
    Option PyDict
  | acc, _, [], rest => contentsToDictGo acc rest
  | acc, key, (k, v) :: ps, rest =>
      if k = "valueMap" then
        match v with
        | .vlist sub =>
            match contentsToDict sub with
            | some m => contentsToDictGo (dictSet acc key (.vdict m)) rest
            | none => none
        | _ => none
      else convValueMap acc key ps rest
termination_by acc key ps rest => sizeOf ps + sizeOf rest + 1
decreasing_by all_goals simp_wf <;> omega

/-- Entry point of `DataModel._contents_to_dict`: convert a contents list to
a dict, starting from the empty accumulator. -/
def contentsToDict (contents : List PyVal) : Option PyDict :=
  contentsToDictGo [] contents
termination_by sizeOf contents + 1
decreasing_by all_goals simp_wf <;> omega

end

/-- The loop of `DataModel._set_at_path`, recursing on the non-empty path
segments.  Python walks `parts[:-1]` creating an empty dict at each absent
segment and stepping into the existing value otherwise, then assigns at
`parts[-1]`; with no segments, nothing happens.  Stepping into (or
assigning into) a non-dict intermediate raises (`TypeError`; for string
intermediates, indexing or item assignment on `str`), modelled as `none`.
A raise can only happen before any dict is created, because every created
intermediate is a fresh empty dict, so `none` with the original tree intact
is the faithful functional reading of the mutating loop. -/
def setParts : List String → PyVal → PyDict → Option PyDict
  | [], _, d => some d
  | [last], v, d => some (dictSet d last v)
  | p :: rest, v, d =>
      match dictGet d p with
      | none =>
          match setParts rest v [] with
          | some sub => some (dictSet d p (.vdict sub))
          | none => none
      | some (.vdict d1) =>
          match setParts rest v d1 with
          | some sub => some (dictSet d p (.vdict sub))
          | none => none
      | some _ => none

/-- Model of `DataModel._set_at_path`: split the path on `/`, drop empty
segments, and write the value at that path. -/
def set_at_path (path : String) (value : PyVal) (data : PyDict) :
    Option PyDict :=
  setParts (pathParts path) value data

/-- Model of `DataModel.update`: convert `contents` to a dict; if `path` is
`None`, the empty string (falsy) or `"/"`, replace the whole tree with the
converted map, otherwise write the converted map at the path.  `none`
models an exception escaping to the caller. -/
def update (path : Option String) (contents : List PyVal) (data : PyDict) :
    Option PyDict :=
  match contentsToDict contents with
  | none => none
  | some newData =>
      match path with
      | none => some newData
      | some p =>
          if p = "" ∨ p = "/" then some newData
          else set_at_path p (.vdict newData) data

/-- The loop of `DataModel.get`: walk the segments; whenever the current
value is a dict containing the segment, step into it, otherwise return the
default. -/
def getParts : List String → PyVal → PyVal → PyVal
  | [], cur, _ => cur
  | p :: rest, cur, dflt =>
      match cur with
      | .vdict d =>
          match dictGet d p with
          | some v => getParts rest v dflt
          | none => dflt
      | _ => dflt

/-- Model of `DataModel.get`: read the value at a `/`-separated path,
returning the default when a segment is missing or an intermediate is not a
dict. -/
def get (path : String) (dflt : PyVal) (data : PyDict) : PyVal :=
  getParts (pathParts path) (.vdict data) dflt

/-- Model of `DataModel.resolve_value`.  Order follows the source: `None`
gives the default; strings pass through; `int`/`float`/`bool` stringify
with Python `str` (note `str(True) = "True"`); dicts are checked for
`literalString` (returned raw, whatever its type), `literalNumber`
(stringified), `literalBoolean` (stringified and lower-cased) and `path`
(looked up in the data model; `None`/missing gives the default) in that
order; everything else stringifies if truthy and otherwise gives the
default.  A non-string `path` payload makes `path.split` raise (`none`). -/
def resolve_value (value : PyVal) (dflt : PyVal) (data : PyDict) :
    Option PyVal :=
  match value with
  | .vnone => some dflt
  | .vstr s => some (.vstr s)
  | .vint n => some (.vstr (pyStr (.vint n)))
  | .vbool b => some (.vstr (pyStr (.vbool b)))
  | .vdict d =>
      match dictGet d ("literalString") with
      | some v => some v
      | none =>
      match dictGet d ("literalNumber") with
      | some v => some (.vstr (pyStr v))
      | none =>
      match dictGet d ("literalBoolean") with
      | some v => some (.vstr (pyLower (pyStr v)))
      | none =>
      match dictGet d ("path") with
      | some (.vstr p) =>
          match get p .vnone data with
          | .vnone => some dflt
          | pv => some (.vstr (pyStr pv))
      | some _ => none
      | none =>
          if pyTruthy (.vdict d) then some (.vstr (pyStr (.vdict d)))
          else some dflt
  | .vlist l =>
      if pyTruthy (.vlist l) then some (.vstr (pyStr (.vlist l)))
      else some dflt

/-- Model of `DataModel.clear`: the tree becomes empty. -/
def clear : PyDict := []

end DataModel

/-- Model of the `Surface` dataclass of `types.py`.  `root_id` comes from
`data.get("root")` and so may be any value (`vnone` when unset); components
are stored as the raw component dicts keyed by their id. -/
structure Surface where
  surface_id : String
  root_id : PyVal
  components : List (String × PyVal)
  styles : PyVal
  data_model : PyDict

/-- The `MessageProcessor` state: its `_surfaces` dict. -/
abbrev ProcState := List (String × Surface)

namespace MessageProcessor

/-- A surface as freshly created by `_handle_surface_update` /
`_handle_data_model_update` (`Surface(surface_id=sid, components={},
data_model={})`), with the dataclass defaults `root_id=None`, `styles={}`. -/
def freshSurface (sid : String) : Surface :=
  { surface_id := sid
    root_id := .vnone
    components := []
    styles := .vdict []
    data_model := [] }

/-- Model of `MessageProcessor.get_surface`: the surface record, or `None`
when the id is unknown. -/
def get_surface (st : ProcState) (sid : String) : Option Surface :=
  dictGet st sid

/-- Model of `MessageProcessor._handle_begin_rendering`: unconditionally
installs a fresh surface record with the given root and styles. -/
def handle_begin_rendering (surfaceId : Option String) (root : PyVal)
    (styles : PyVal) (st : ProcState) : ProcState :=
  let sid := surfaceId.getD "default"
  dictSet st sid
    { surface_id := sid
      root_id := root
      components := []
      styles := styles
      data_model := [] }

/-- The loop of `_handle_surface_update` over the `components` list, folding
into the surface's component map: entries that are not dicts make
`comp.get` raise (`none`); entries whose `id` is absent or falsy are
skipped; otherwise the whole component dict is stored under its id.  Truthy
non-string ids fall outside the string-keyed embedding (`none`). -/
def updateComponents : List PyVal → List (String × PyVal) →
    Option (List (String × PyVal))
  | [], m => some m
  | .vdict pairs :: rest, m =>
      match dictGet pairs ("id") with
      | some (.vstr cid) =>
          if cid = "" then updateComponents rest m
          else updateComponents rest (dictSet m cid (.vdict pairs))
      | some v => if pyTruthy v then none else updateComponents rest m
      | none => updateComponents rest m
  | _ :: _, _ => none

/-- Model of `MessageProcessor._handle_surface_update`: auto-create the
surface if absent (keeping existing state otherwise), then insert/replace
each component with a truthy id. -/
def handle_surface_update (surfaceId : Option String)
    (components : List PyVal) (st : ProcState) : Option ProcState :=
  let sid := surfaceId.getD "default"
  let st1 := if (dictGet st sid).isSome then st
             else dictSet st sid (freshSurface sid)
  match dictGet st1 sid with
  | some surf =>
      match updateComponents components surf.components with
      | some m => some (dictSet st1 sid { surf with components := m })
      | none => none
  | none => none

/-- Model of `MessageProcessor._handle_data_model_update`: auto-create the
surface if absent, then run `DataModel.update` on its tree and store the
result back. -/
def handle_data_model_update (surfaceId : Option String)
    (path : Option String) (contents : List PyVal) (st : ProcState) :
    Option ProcState :=
  let sid := surfaceId.getD "default"
  let st1 := if (dictGet st sid).isSome then st
             else dictSet st sid (freshSurface sid)
  match dictGet st1 sid with
  | some surf =>
      match DataModel.update path contents surf.data_model with
      | some d => some (dictSet st1 sid { surf with data_model := d })
      | none => none
  | none => none

/-- Model of `MessageProcessor._handle_delete_surface`: delete the surface
when `surfaceId` is truthy and present (`if surface_id and surface_id in
self._surfaces`); otherwise (falsy id, unknown id, or a non-string id,
which is never a key of the string-keyed dict) leave the state unchanged. -/
def handle_delete_surface (data : PyDict) (st : ProcState) : ProcState :=
  match dictGet data ("surfaceId") with
  | some (.vstr sid) =>
      if sid ≠ "" ∧ (dictGet st sid).isSome then dictDel st sid else st
  | _ => st

/-- Model of `MessageProcessor.clear_surfaces`. -/
def clear_surfaces : ProcState := []

end MessageProcessor

/-- Result of a rendering call: the produced HTML string, a propagating
Python exception (`exn`), or exhaustion of the modelled recursion depth
(`nofuel` — the computation did not complete within that many nested
`_render_component` frames). -/
inductive RRes where
  | ok (html : String) : RRes
  | exn : RRes
  | nofuel : RRes
  deriving Repr, DecidableEq

/-- One character of `html.escape` (with its default `quote=True`). -/
def escapeChar (c : Char) : String :=
  if c = Char.ofNat 38 then "&amp;"
  else if c = Char.ofNat 60 then "&lt;"
  else if c = Char.ofNat 62 then "&gt;"
  else if c = Char.ofNat 34 then "&quot;"
  else if c = Char.ofNat 39 then "&#x27;"
  else c.toString

/-- Model of `html.escape`: the per-character replacement (the sequential
`str.replace` calls of the library function replace `&` first, so they act
per input character). -/
def htmlEscape (s : String) : String :=
  String.join (s.toList.map escapeChar)

/-- Python `u.startswith("/")`: the first character is a slash. -/
def startsSlash (u : String) : Bool :=
  match u.toList with
  | [] => false
  | c :: _ => c = Char.ofNat 47

/-- Python `v == "h3"`-style comparison of an arbitrary value with a string
literal: true exactly for the equal string (`str.__eq__` is false for every
non-`str` operand). -/
def pyEqStr (v : PyVal) (s : String) : Bool :=
  match v with
  | .vstr t => t = s
  | _ => false

namespace HTMLRenderer

/-- Model of `HTMLRenderer._resolve`: `props.get(name)` yields `None` when
the property is absent, which `resolve_value` turns into the default. -/
def resolveProp (v : Option PyVal) (dm : PyDict) (dflt : String) :
    Option PyVal :=
  DataModel.resolve_value (v.getD .vnone) (.vstr dflt) dm

/-- The type of the recursive `_render_component` callback: component
record, flat component map, data model, base url. -/
abbrev RenderFn := PyVal → List (String × PyVal) → PyDict → String → RRes

/-- Model of `HTMLRenderer._render_text`: resolve and escape `text`, pick
the css class from `usageHint == "h3"`.  Non-dict `props` or a non-string
resolved value (which `escape` rejects) raise. -/
def render_text (props : PyVal) (dm : PyDict) : RRes :=
  match props with
  | .vdict p =>
      match resolveProp (dictGet p ("text")) dm "" with
      | some (.vstr s) =>
          let hint := (dictGet p ("usageHint")).getD (.vstr "")
          let cls := if pyEqStr hint "h3" then "a2ui-title" else "a2ui-text"
          .ok ("<p class=\"" ++ cls ++ "\">" ++ htmlEscape s ++ "</p>")
      | _ => .exn
  | _ => .exn

/-- Model of `HTMLRenderer._render_heading`: resolve and escape `text`,
clamp `level` into 1–6 with `max(1, min(6, level))`.  The default level is
2; a boolean level flows through Python `min`/`max` and always clamps to 1;
a level that is not a number makes the comparison raise. -/
def render_heading (props : PyVal) (dm : PyDict) : RRes :=
  match props with
  | .vdict p =>
      match resolveProp (dictGet p ("text")) dm "" with
      | some (.vstr s) =>
          match (dictGet p ("level")).getD (.vint 2) with
          | .vint n =>
              let lv := max 1 (min 6 n)
              .ok ("<h" ++ toString lv ++ " class=\"a2ui-heading\">" ++
                htmlEscape s ++ "</h" ++ toString lv ++ ">")
          | .vbool _ =>
              .ok ("<h1 class=\"a2ui-heading\">" ++ htmlEscape s ++ "</h1>")
          | _ => .exn
      | _ => .exn
  | _ => .exn

/-- Model of `HTMLRenderer._render_image`: resolve `url` and `alt`, rewrite
a site-relative url (leading `/`) against the base url, escape both. -/
def render_image (props : PyVal) (dm : PyDict) (baseUrl : String) : RRes :=
  match props with
  | .vdict p =>
      match resolveProp (dictGet p ("url")) dm "" with
      | some uv =>
          match resolveProp (dictGet p ("alt")) dm "" with
          | some (.vstr a) =>
              match uv with
              | .vstr u =>
                  let u2 := if startsSlash u then baseUrl ++ u else u
                  .ok ("<img src=\"" ++ htmlEscape u2 ++ "\" alt=\"" ++
                    htmlEscape a ++ "\" class=\"a2ui-image\" />")
              | _ => .exn
          | _ => .exn
      | none => .exn
  | _ => .exn

/-- Model of `HTMLRenderer._render_button`: the label defaults to
`"Button"` when unresolvable. -/
def render_button (props : PyVal) (dm : PyDict) : RRes :=
  match props with
  | .vdict p =>
      match resolveProp (dictGet p ("label")) dm "Button" with
      | some (.vstr s) =>
          .ok ("<button class=\"a2ui-button\">" ++ htmlEscape s ++ "</button>")
      | _ => .exn
  | _ => .exn

/-- Model of `HTMLRenderer._render_divider`: ignores all properties. -/
def render_divider (props : PyVal) : RRes :=
  match props with
  | _ => .ok "<hr class=\"a2ui-divider\" />"

/-- Model of `HTMLRenderer._render_card`: a truthy `child` id present in
the component map is rendered inside the card; a falsy, missing, dangling
or non-string id contributes nothing. -/
def render_card (rec : RenderFn) (props : PyVal)
    (cmap : List (String × PyVal)) (dm : PyDict) (b : String) : RRes :=
  match props with
  | .vdict p =>
      match dictGet p ("child") with
      | some cv =>
          if pyTruthy cv then
            match cv with
            | .vstr cid =>
                match dictGet cmap cid with
                | some child =>
                    match rec child cmap dm b with
                    | .ok h => .ok ("<div class=\"a2ui-card\">" ++ h ++ "</div>")
                    | e => e
                | none => .ok "<div class=\"a2ui-card\"></div>"
            | _ => .ok "<div class=\"a2ui-card\"></div>"
          else .ok "<div class=\"a2ui-card\"></div>"
      | none => .ok "<div class=\"a2ui-card\"></div>"
  | _ => .exn

/-- The loop of `HTMLRenderer._render_children` over `explicitList`: ids
present in the component map are rendered and non-empty results
concatenated in listed order; missing or non-string ids are skipped. -/
def render_children_go (rec : RenderFn) : List PyVal →
    List (String × PyVal) → PyDict → String → RRes
  | [], _, _, _ => .ok ""
  | cv :: rest, cmap, dm, b =>
      match cv with
      | .vstr cid =>
          match dictGet cmap cid with
          | some child =>
              match rec child cmap dm b with
              | .ok h =>
                  match render_children_go rec rest cmap dm b with
                  | .ok hs => .ok (if h = "" then hs else h ++ hs)
                  | e => e
              | e => e
          | none => render_children_go rec rest cmap dm b
      | _ => render_children_go rec rest cmap dm b

/-- Model of `HTMLRenderer._render_children`: `props.get("children", {})`
then `children_prop.get("explicitList", [])`; a non-dict `children` value
or non-list `explicitList` raises. -/
def render_children (rec : RenderFn) (props : PyVal)
    (cmap : List (String × PyVal)) (dm : PyDict) (b : String) : RRes :=
  match props with
  | .vdict p =>
      match (dictGet p ("children")).getD (.vdict []) with
      | .vdict cp =>
          match dictGet cp ("explicitList") with
          | some (.vlist l) => render_children_go rec l cmap dm b
          | some _ => .exn
          | none => .ok ""
      | _ => .exn
  | _ => .exn

/-- Model of `HTMLRenderer._render_row`. -/
def render_row (rec : RenderFn) (props : PyVal)
    (cmap : List (String × PyVal)) (dm : PyDict) (b : String) : RRes :=
  match render_children rec props cmap dm b with
  | .ok h => .ok ("<div class=\"a2ui-row\">" ++ h ++ "</div>")
  | e => e

/-- Model of `HTMLRenderer._render_column`. -/
def render_column (rec : RenderFn) (props : PyVal)
    (cmap : List (String × PyVal)) (dm : PyDict) (b : String) : RRes :=
  match render_children rec props cmap dm b with
  | .ok h => .ok ("<div class=\"a2ui-column\">" ++ h ++ "</div>")
  | e => e

/-- Model of `HTMLRenderer._render_list`. -/
def render_list (rec : RenderFn) (props : PyVal)
    (cmap : List (String × PyVal)) (dm : PyDict) (b : String) : RRes :=
  match render_children rec props cmap dm b with
  | .ok h => .ok ("<div class=\"a2ui-list\">" ++ h ++ "</div>")
  | e => e

/-- The body of `HTMLRenderer._render_component`, parametrised by the
recursive callback `rec` used for nested components: an absent or falsy
`component` wrapper renders as the empty string; otherwise the first key of
the wrapper selects the type-specific renderer, and an unknown type renders
as the empty string.  A non-dict component record or wrapper raises
(`component.get` / `.keys()` on a non-dict). -/
def render_component_body (rec : RenderFn) (component : PyVal)
    (cmap : List (String × PyVal)) (dm : PyDict) (b : String) : RRes :=
  match component with
  | .vdict pairs =>
      let wrapper := (dictGet pairs ("component")).getD (.vdict [])
      if pyTruthy wrapper then
        match wrapper with
        | .vdict ((t, props) :: _) =>
            if t = "Text" then render_text props dm
            else if t = "Heading" then render_heading props dm
            else if t = "Image" then render_image props dm b
            else if t = "Card" then render_card rec props cmap dm b
            else if t = "Row" then render_row rec props cmap dm b
            else if t = "Column" then render_column rec props cmap dm b
            else if t = "List" then render_list rec props cmap dm b
            else if t = "Button" then render_button props dm
            else if t = "Divider" then render_divider props
            else .ok ""
        | _ => .exn
      else .ok ""
  | _ => .exn

/-- Model of `HTMLRenderer._render_component` at a bounded recursion depth:
fuel counts the nested `_render_component` stack frames the computation may
still open (the Python source has no such bound — see the theorems about
cyclic component graphs). -/
def render_component : Nat → RenderFn
  | 0 => fun _ _ _ _ => .nofuel
  | fuel + 1 => fun comp cmap dm b =>
      render_component_body (render_component fuel) comp cmap dm b

/-- The loop of `HTMLRenderer.render_surface` over the component map:
render every component in the map, in insertion order, concatenating the
non-empty results. -/
def render_parts (fuel : Nat) : List (String × PyVal) →
    List (String × PyVal) → PyDict → String → RRes
  | [], _, _, _ => .ok ""
  | (_, comp) :: rest, cmap, dm, b =>
      match render_component fuel comp cmap dm b with
      | .ok h =>
          match render_parts fuel rest cmap dm b with
          | .ok hs => .ok (if h = "" then hs else h ++ hs)
          | e => e
      | e => e

/-- Model of `HTMLRenderer.render_surface`: an unknown surface renders as
the empty string; otherwise every component in the surface's map is
rendered against the surface's data model and the non-empty results are
concatenated, in map order, inside the surface wrapper div.  The surface's
`root_id` is never consulted. -/
def render_surface (fuel : Nat) (st : ProcState) (sid : String)
    (baseUrl : String) : RRes :=
  match MessageProcessor.get_surface st sid with
  | none => .ok ""
  | some surf =>
      match render_parts fuel surf.components surf.components
          surf.data_model baseUrl with
      | .ok body => .ok ("<div class=\"a2ui-surface\">" ++ body ++ "</div>")
      | e => e

/-- `render_surface` together with the processor state it leaves behind:
the source performs no assignment to the processor, the surface record, its
component map or its data model anywhere on the rendering path, so the
state component of the translation is the input state itself. -/
def render_surface_st (fuel : Nat) (st : ProcState) (sid : String)
    (baseUrl : String) : RRes × ProcState :=
  (render_surface fuel st sid baseUrl, st)

end HTMLRenderer

/-! ### Basic dictionary lemmas -/

theorem dictGet_set_self {α : Type} (d : List (String × α)) (k : String)
    (v : α) : dictGet (dictSet d k v) k = some v := by
  induction d with
  | nil => simp [dictGet, dictSet]
  | cons kv rest ih =>
      obtain ⟨k1, v1⟩ := kv
      by_cases h : k1 = k <;> simp [dictGet, dictSet, h, ih]

theorem dictGet_set_ne {α : Type} (d : List (String × α)) {k k2 : String}
    (v : α) (h : k ≠ k2) : dictGet (dictSet d k v) k2 = dictGet d k2 := by
  induction d with
  | nil => simp [dictGet, dictSet, h]
  | cons kv rest ih =>
      obtain ⟨k1, v1⟩ := kv
      by_cases h1 : k1 = k
      · subst h1
        simp [dictGet, dictSet, h]
      · simp [dictGet, dictSet, h1, ih]

theorem dictGet_not_mem {α : Type} (d : List (String × α)) {k : String}
    (h : k ∉ d.map Prod.fst) : dictGet d k = none := by
  induction d with
  | nil => rfl
  | cons kv rest ih =>
      obtain ⟨k1, v1⟩ := kv
      have h1 : k1 ≠ k := fun hq => h (by simp [hq])
      simp only [dictGet, if_neg h1]
      exact ih (fun hm => h (by simp at hm ⊢; tauto))

theorem dictGet_del_self {α : Type} (d : List (String × α)) (k : String)
    (hnd : (d.map Prod.fst).Nodup) : dictGet (dictDel d k) k = none := by
  induction d with
  | nil => simp [dictGet, dictDel]
  | cons kv rest ih =>
      obtain ⟨k1, v1⟩ := kv
      simp only [List.map_cons, List.nodup_cons] at hnd
      by_cases h1 : k1 = k
      · subst h1
        simp only [dictDel, if_pos rfl]
        exact dictGet_not_mem rest hnd.1
      · simp only [dictDel, if_neg h1, dictGet, if_neg h1]
        exact ih hnd.2

theorem dictGet_del_ne {α : Type} (d : List (String × α)) {k k2 : String}
    (h : k ≠ k2) : dictGet (dictDel d k) k2 = dictGet d k2 := by
  induction d with
  | nil => simp [dictGet, dictDel]
  | cons kv rest ih =>
      obtain ⟨k1, v1⟩ := kv
      by_cases h1 : k1 = k
      · subst h1
        have h2 : k1 ≠ k2 := h
        simp [dictDel, dictGet, h2]
      · simp [dictDel, dictGet, h1, ih]

/-! ### Path-splitting lemmas -/

theorem splitSeg_no_slash (l : List Char) (h : Char.ofNat 47 ∉ l) :
    splitSeg l = [l] := by
  induction l with
  | nil => rfl
  | cons c rest ih =>
      have hc : ¬ c = Char.ofNat 47 := fun hq => h (by simp [hq])
      have hr : splitSeg rest = [rest] := ih (fun hm => h (by simp [hm]))
      simp [splitSeg, hc, hr]

theorem pathParts_single (x : String) (hx : x ≠ "")
    (hs : Char.ofNat 47 ∉ x.toList) : pathParts x = [x] := by
  unfold pathParts
  rw [splitSeg_no_slash x.toList hs]
  have hmk : String.mk x.toList = x := rfl
  simp [hmk, hx]

/-! ### Lemmas about the path-write loop `DataModel.setParts` -/

/-- Whether a value is a dict (a traversable intermediate for the path
walk). -/
def isMapVal : PyVal → Bool
  | .vdict _ => true
  | _ => false

theorem setParts_fresh (parts : List String) (v : PyVal) (h : parts ≠ []) :
    ∃ sub, DataModel.setParts parts v [] = some sub := by
  induction parts with
  | nil => exact absurd rfl h
  | cons p rest ih =>
      cases rest with
      | nil => exact ⟨dictSet [] p v, rfl⟩
      | cons r rs =>
          obtain ⟨sub, hsub⟩ := ih (by simp)
          refine ⟨dictSet [] p (.vdict sub), ?_⟩
          simp only [DataModel.setParts, dictGet, hsub]

/-- A successful write at a non-empty path `p :: pr` produces a dict whose
binding at `p` was replaced or inserted; every other key keeps its
binding. -/
theorem setParts_cons_eq (p : String) (pr : List String) (v : PyVal)
    (d d' : PyDict) (h : DataModel.setParts (p :: pr) v d = some d') :
    ∃ X, d' = dictSet d p X := by
  cases pr with
  | nil =>
      refine ⟨v, ?_⟩
      simpa [DataModel.setParts] using h.symm
  | cons r rs =>
      simp only [DataModel.setParts] at h
      cases hd : dictGet d p with
      | none =>
          simp only [hd] at h
          cases hs : DataModel.setParts (r :: rs) v [] with
          | none => simp [hs] at h
          | some sub =>
              simp only [hs] at h
              exact ⟨.vdict sub, by simpa using h.symm⟩
      | some val =>
          cases val with
          | vdict d1 =>
              simp only [hd] at h
              cases hs : DataModel.setParts (r :: rs) v d1 with
              | none => simp [hs] at h
              | some sub =>
                  simp only [hs] at h
                  exact ⟨.vdict sub, by simpa using h.symm⟩
          | vnone => simp [hd] at h
          | vstr s => simp [hd] at h
          | vint n => simp [hd] at h
          | vbool b => simp [hd] at h
          | vlist l => simp [hd] at h

/-- Reading back a successfully written path yields the written value. -/
theorem setParts_read (parts : List String) (v : PyVal) :
    ∀ (d d' : PyDict) (dflt : PyVal), parts ≠ [] →
    DataModel.setParts parts v d = some d' →
    DataModel.getParts parts (.vdict d') dflt = v := by
  induction parts with
  | nil => intro d d' dflt h; exact absurd rfl h
  | cons p rest ih =>
      intro d d' dflt _ hset
      cases rest with
      | nil =>
          have hd : d' = dictSet d p v := by
            simpa [DataModel.setParts] using hset.symm
          subst hd
          simp [DataModel.getParts, dictGet_set_self]
      | cons r rs =>
          simp only [DataModel.setParts] at hset
          cases hd : dictGet d p with
          | none =>
              simp only [hd] at hset
              cases hs : DataModel.setParts (r :: rs) v [] with
              | none => simp [hs] at hset
              | some sub =>
                  simp only [hs] at hset
                  have hd' : d' = dictSet d p (.vdict sub) := by
                    simpa using hset.symm
                  subst hd'
                  simp only [DataModel.getParts, dictGet_set_self]
                  exact ih [] sub dflt (by simp) hs
          | some val =>
              cases val with
              | vdict d1 =>
                  simp only [hd] at hset
                  cases hs : DataModel.setParts (r :: rs) v d1 with
                  | none => simp [hs] at hset
                  | some sub =>
                      simp only [hs] at hset
                      have hd' : d' = dictSet d p (.vdict sub) := by
                        simpa using hset.symm
                      subst hd'
                      simp only [DataModel.getParts, dictGet_set_self]
                      exact ih d1 sub dflt (by simp) hs
              | vnone => simp [hd] at hset
              | vstr s => simp [hd] at hset
              | vint n => simp [hd] at hset
              | vbool b => simp [hd] at hset
              | vlist l => simp [hd] at hset

/-- Reading an empty tree at a non-empty path yields the default. -/
theorem getParts_empty (q : List String) (dflt : PyVal) (h : q ≠ []) :
    DataModel.getParts q (.vdict []) dflt = dflt := by
  cases q with
  | nil => exact absurd rfl h
  | cons a qs => simp [DataModel.getParts, dictGet]

/-- Frame property of the path-write loop: a successful write at `parts`
leaves the value read at any path `q` that diverges from `parts` at some
index `i` (both paths still defined there, equal up to `i`, different at
`i`) unchanged. -/
theorem setParts_frame (i : Nat) :
    ∀ (parts q : List String) (v : PyVal) (d d' : PyDict) (dflt : PyVal),
    DataModel.setParts parts v d = some d' →
    i < parts.length → i < q.length →
    parts.take i = q.take i → parts.get? i ≠ q.get? i →
    DataModel.getParts q (.vdict d') dflt =
      DataModel.getParts q (.vdict d) dflt := by
  induction i with
  | zero =>
      intro parts q v d d' dflt hset hip hiq htake hget
      cases parts with
      | nil => simp at hip
      | cons p pr =>
          cases q with
          | nil => simp at hiq
          | cons a qs =>
              have hpa : p ≠ a := by simpa using hget
              obtain ⟨X, rfl⟩ := setParts_cons_eq p pr v d _ hset
              simp only [DataModel.getParts]
              rw [dictGet_set_ne d X hpa]
  | succ n ih =>
      intro parts q v d d' dflt hset hip hiq htake hget
      cases parts with
      | nil => simp at hip
      | cons p pr =>
          cases q with
          | nil => simp at hiq
          | cons a qs =>
              have hpa : p = a := by simpa using (congrArg (·.head?) htake)
              subst hpa
              have htake' : pr.take n = qs.take n := by simpa using htake
              have hget' : pr.get? n ≠ qs.get? n := by simpa using hget
              have hip' : n < pr.length := by simpa using hip
              have hiq' : n < qs.length := by simpa using hiq
              cases pr with
              | nil => simp at hip'
              | cons r rs =>
                  simp only [DataModel.setParts] at hset
                  cases hd : dictGet d p with
                  | none =>
                      simp only [hd] at hset
                      cases hs : DataModel.setParts (r :: rs) v [] with
                      | none => simp [hs] at hset
                      | some sub =>
                          simp only [hs] at hset
                          have hd' : d' = dictSet d p (.vdict sub) := by
                            simpa using hset.symm
                          subst hd'
                          simp only [DataModel.getParts, dictGet_set_self, hd]
                          rw [ih (r :: rs) qs v [] sub dflt hs hip' hiq'
                            htake' hget']
                          exact getParts_empty qs dflt
                            (by cases qs <;> simp_all)
                  | some val =>
                      cases val with
                      | vdict d1 =>
                          simp only [hd] at hset
                          cases hs : DataModel.setParts (r :: rs) v d1 with
                          | none => simp [hs] at hset
                          | some sub =>
                              simp only [hs] at hset
                              have hd' : d' = dictSet d p (.vdict sub) := by
                                simpa using hset.symm
                              subst hd'
                              simp only [DataModel.getParts, dictGet_set_self,
                                hd]
                              exact ih (r :: rs) qs v d1 sub dflt hs hip' hiq'
                                htake' hget'
                      | vnone => simp [hd] at hset
                      | vstr s => simp [hd] at hset
                      | vint n2 => simp [hd] at hset
                      | vbool b => simp [hd] at hset
                      | vlist l => simp [hd] at hset

/-! ### Claim C7 -/

/-- Claim C7: `render_surface` is pure and idempotent — for every processor
state, surface id (and base url and recursion budget), rendering leaves the
processor state unchanged, and rendering again from the state left behind
by the first call yields the identical output. -/
theorem claim_C7_render_pure_idempotent :
    ∀ (fuel : Nat) (st : ProcState) (sid baseUrl : String),
    (HTMLRenderer.render_surface_st fuel st sid baseUrl).2 = st ∧
    (HTMLRenderer.render_surface_st fuel
        (HTMLRenderer.render_surface_st fuel st sid baseUrl).2 sid
        baseUrl).1 =
      (HTMLRenderer.render_surface_st fuel st sid baseUrl).1 :=
  fun _ _ _ _ => ⟨rfl, rfl⟩

/-! ### Claim C10 -/

/-- Claim C10: a component record with an absent or falsy `component`
wrapper, or whose first wrapper key is not one of the nine catalog types,
renders as the empty string (no exception), at any positive recursion
budget. -/
theorem claim_C10_unknown_components_render_empty :
    ∀ (fuel : Nat) (pairs cmap : List (String × PyVal)) (dm : PyDict)
      (b : String),
    (dictGet pairs ("component") = none →
      HTMLRenderer.render_component (fuel + 1) (.vdict pairs) cmap dm b =
        .ok "") ∧
    (∀ w, dictGet pairs ("component") = some w → pyTruthy w = false →
      HTMLRenderer.render_component (fuel + 1) (.vdict pairs) cmap dm b =
        .ok "") ∧
    (∀ t props rest,
      dictGet pairs ("component") = some (.vdict ((t, props) :: rest)) →
      t ∉ (["Text", "Heading", "Image", "Card", "Row", "Column", "List",
        "Button", "Divider"] : List String) →
      HTMLRenderer.render_component (fuel + 1) (.vdict pairs) cmap dm b =
        .ok "") := by
  intro fuel pairs cmap dm b
  refine ⟨?_, ?_, ?_⟩
  · intro h
    simp [HTMLRenderer.render_component, HTMLRenderer.render_component_body,
      h, pyTruthy]
  · intro w h hw
    simp [HTMLRenderer.render_component, HTMLRenderer.render_component_body,
      h, hw]
  · intro t props rest h ht
    simp only [List.mem_cons, List.mem_singleton] at ht
    push_neg at ht
    obtain ⟨h1, h2, h3, h4, h5, h6, h7, h8, h9, _⟩ := ht
    simp [HTMLRenderer.render_component, HTMLRenderer.render_component_body,
      h, pyTruthy, h1, h2, h3, h4, h5, h6, h7, h8, h9]

/-- Witness for claim C10 at concrete inputs: a record with no wrapper, a
record with a falsy wrapper, and a record with an unknown type. -/
theorem claim_C10_witness :
    HTMLRenderer.render_component 1 (.vdict [("id", .vstr ("x"))]) [] []
      "b" = .ok "" ∧
    HTMLRenderer.render_component 1 (.vdict [("component", .vint 0)]) [] []
      "b" = .ok "" ∧
    HTMLRenderer.render_component 1
      (.vdict [("component", .vdict [("Wat", .vdict [])])]) [] [] "b" =
      .ok "" :=
  ⟨(claim_C10_unknown_components_render_empty 0 [("id", .vstr ("x"))] [] []
      "b").1 rfl,
   (claim_C10_unknown_components_render_empty 0 [("component", .vint 0)] []
      [] "b").2.1 (.vint 0) rfl rfl,
   (claim_C10_unknown_components_render_empty 0
      [("component", .vdict [("Wat", .vdict [])])] [] [] "b").2.2 "Wat"
      (.vdict []) [] rfl (by decide)⟩

/-! ### Claim C5 -/

/-- Claim C5 counterexample: a bare boolean literal resolves to the Python
string `"True"`, not the lowercase `"true"` the claim asserts, and
likewise a `path` reference resolving to a stored boolean. -/
theorem claim_C5_counterexample :
    DataModel.resolve_value (.vbool true) (.vstr "") [] =
      some (.vstr "True") ∧
    DataModel.resolve_value (.vbool true) (.vstr "") [] ≠
      some (.vstr "true") ∧
    DataModel.resolve_value (.vdict [("path", .vstr ("x"))]) (.vstr "")
      [("x", .vbool true)] = some (.vstr "True") := by
  refine ⟨rfl, ?_, rfl⟩
  intro h
  rw [show DataModel.resolve_value (.vbool true) (.vstr "") [] =
    some (.vstr "True") from rfl] at h
  exact absurd (PyVal.vstr.inj (Option.some.inj h)) (by decide)

/-- Claim C5 amended: only a tagged `literalBoolean` is stringified as
lowercase `true`/`false`; a bare boolean and a `path` reference resolving
to a stored boolean stringify via Python `str` as `True`/`False`.  Integer
numeric values (bare or tagged `literalNumber`) stringify in canonical
decimal. -/
theorem claim_C5_amended :
    ∀ (b : Bool) (n : Int) (dflt : PyVal) (d : PyDict),
    DataModel.resolve_value (.vdict [("literalBoolean", .vbool b)]) dflt d =
      some (.vstr (if b then "true" else "false")) ∧
    DataModel.resolve_value (.vbool b) dflt d =
      some (.vstr (if b then "True" else "False")) ∧
    DataModel.resolve_value (.vdict [("path", .vstr ("x"))]) dflt
      (("x", .vbool b) :: d) =
      some (.vstr (if b then "True" else "False")) ∧
    DataModel.resolve_value (.vint n) dflt d = some (.vstr (toString n)) ∧
    DataModel.resolve_value (.vdict [("literalNumber", .vint n)]) dflt d =
      some (.vstr (toString n)) := by
  intro b n dflt d
  cases b <;> exact ⟨rfl, rfl, rfl, rfl, rfl⟩

/-! ### Claim C1 -/

/-- A `Card` component whose `child` is its own id: the smallest cyclic
component graph. -/
def cyclicCard : PyVal :=
  .vdict [("id", .vstr ("c")),
    ("component", .vdict [("Card", .vdict [("child", .vstr ("c"))])])]

/-- A surface holding only the self-referential card. -/
def cyclicSurface : Surface :=
  { surface_id := "s"
    root_id := .vnone
    components := [("c", cyclicCard)]
    styles := .vdict []
    data_model := [] }

/-- A processor state holding the cyclic surface. -/
def cyclicState : ProcState := [("s", cyclicSurface)]

/-- Rendering the self-referential card never completes within any
recursion budget: each nested `_render_component` frame opens another. -/
theorem cyclicCard_render_nofuel :
    ∀ (fuel : Nat) (b : String),
    HTMLRenderer.render_component fuel cyclicCard [("c", cyclicCard)] [] b =
      .nofuel := by
  intro fuel
  induction fuel with
  | zero => intro b; rfl
  | succ n ih =>
      intro b
      have ihb := ih b
      simp only [cyclicCard] at ihb
      simp only [HTMLRenderer.render_component]
      simp [HTMLRenderer.render_component_body, HTMLRenderer.render_card,
        cyclicCard, dictGet, pyTruthy, ihb]

/-- Claim C1: contrary to the specification, `render_surface` does NOT
terminate on a surface whose component graph contains a cycle: on the
surface holding a card whose `child` is its own id, the rendering at every
recursion budget `fuel` still wants to recurse deeper (`nofuel` for all
`fuel`), i.e. the unbounded Python recursion never returns and aborts with
`RecursionError`.  The source has no visited set or depth cap. -/
theorem claim_C1_render_surface_diverges_on_cycle :
    ∀ (fuel : Nat) (b : String),
    HTMLRenderer.render_surface fuel cyclicState "s" b = .nofuel := by
  intro fuel b
  simp [HTMLRenderer.render_surface, MessageProcessor.get_surface,
    cyclicState, cyclicSurface, dictGet, HTMLRenderer.render_parts,
    cyclicCard_render_nofuel fuel b]

/-! ### Claim C2 -/

/-- Claim C2 counterexample: with a scalar stored at `a`, a write at path
`a/b` raises (`TypeError`, modelled by `none`) instead of overwriting the
scalar intermediate with a fresh map as the claim asserts. -/
theorem claim_C2_counterexample :
    DataModel.update (some "a/b")
      [.vdict [("key", .vstr ("c")), ("valueString", .vstr ("v"))]]
      [("a", .vint 5)] = none := by
  simp [DataModel.update, DataModel.contentsToDict,
    DataModel.contentsToDictGo, DataModel.set_at_path, pathParts, splitSeg,
    DataModel.setParts, dictGet, dictSet, pyTruthy]

/-- Claim C2 amended: a non-root path write whose walk meets a non-map
value at an intermediate segment raises `TypeError` to the caller (modelled
as `none`), leaving the scalar in place — it is NOT overwritten with a
fresh map.  Fresh maps are created only at absent intermediate segments, in
which case the write succeeds there. -/
theorem claim_C2_amended :
    ∀ (d : PyDict) (p : String) (rest : List String) (v s : PyVal),
    (rest ≠ [] → dictGet d p = some s → isMapVal s = false →
      DataModel.setParts (p :: rest) v d = none) ∧
    (rest ≠ [] → dictGet d p = none →
      ∃ sub, DataModel.setParts rest v [] = some sub ∧
        DataModel.setParts (p :: rest) v d =
          some (dictSet d p (.vdict sub))) := by
  intro d p rest v s
  constructor
  · intro hr hd hs
    cases rest with
    | nil => exact absurd rfl hr
    | cons r rs =>
        simp only [DataModel.setParts, hd]
        cases s with
        | vdict d1 => simp [isMapVal] at hs
        | vnone => rfl
        | vstr s2 => rfl
        | vint n => rfl
        | vbool b => rfl
        | vlist l => rfl
  · intro hr hd
    cases rest with
    | nil => exact absurd rfl hr
    | cons r rs =>
        obtain ⟨sub, hsub⟩ := setParts_fresh (r :: rs) v (by simp)
        exact ⟨sub, hsub, by simp only [DataModel.setParts, hd, hsub]⟩

/-- Witness for the amended claim C2: writing `a/b` over a scalar `a`
raises; writing `a/b` into an empty tree creates the intermediate map. -/
theorem claim_C2_witness :
    DataModel.setParts ["a", "b"] (.vstr ("w")) [("a", .vint 5)] = none ∧
    (∃ sub, DataModel.setParts ["b"] (.vstr ("w")) [] = some sub ∧
      DataModel.setParts ["a", "b"] (.vstr ("w")) [] =
        some (dictSet [] "a" (.vdict sub))) :=
  ⟨(claim_C2_amended [("a", .vint 5)] "a" ["b"] (.vstr ("w"))
      (.vint 5)).1 (by simp) rfl rfl,
   (claim_C2_amended [] "a" ["b"] (.vstr ("w")) .vnone).2 (by simp) rfl⟩

/-! ### Claim C3 -/

/-- Claim C3 counterexample: a non-root write at `a/b` over a scalar `a`
does not replace the subtree at that path — it raises (`none`), so the
universal replacement claim fails. -/
theorem claim_C3_counterexample :
    DataModel.update (some "a/b")
      [.vdict [("key", .vstr ("c")), ("valueString", .vstr ("v"))]]
      [("a", .vstr ("s"))] = none := by
  simp [DataModel.update, DataModel.contentsToDict,
    DataModel.contentsToDictGo, DataModel.set_at_path, pathParts, splitSeg,
    DataModel.setParts, dictGet, dictSet, pyTruthy]

/-- Claim C3 amended: with `path` absent, empty or `"/"`, the whole tree is
replaced by the converted contents (prior keys lost).  For a non-root path
that converts to a non-empty segment list, a SUCCESSFUL update replaces
exactly the subtree at that path — reading the path back yields the written
map, and every path diverging from it (equal up to some index where both
are defined and then different) reads exactly as before.  A non-root path
whose segments are all empty leaves the tree unchanged, and an update that
meets a scalar intermediate raises instead of replacing. -/
theorem claim_C3_amended :
    (∀ contents nd d, DataModel.contentsToDict contents = some nd →
      DataModel.update none contents d = some nd ∧
      DataModel.update (some "") contents d = some nd ∧
      DataModel.update (some "/") contents d = some nd) ∧
    (∀ p contents nd d d', DataModel.contentsToDict contents = some nd →
      p ≠ "" → p ≠ "/" →
      DataModel.update (some p) contents d = some d' →
      ((pathParts p ≠ [] →
        (∀ dflt, DataModel.getParts (pathParts p) (.vdict d') dflt =
          .vdict nd) ∧
        (∀ q i dflt, i < (pathParts p).length → i < q.length →
          (pathParts p).take i = q.take i →
          (pathParts p).get? i ≠ q.get? i →
          DataModel.getParts q (.vdict d') dflt =
            DataModel.getParts q (.vdict d) dflt)) ∧
       (pathParts p = [] → d' = d))) := by
  constructor
  · intro contents nd d h
    exact ⟨by simp [DataModel.update, h], by simp [DataModel.update, h],
      by simp [DataModel.update, h]⟩
  · intro p contents nd d d' h hne1 hne2 hupd
    simp only [DataModel.update, h] at hupd
    rw [if_neg (by simp [hne1, hne2])] at hupd
    simp only [DataModel.set_at_path] at hupd
    refine ⟨fun hne => ⟨fun dflt =>
      setParts_read (pathParts p) (.vdict nd) d d' dflt hne hupd,
      fun q i dflt h1 h2 h3 h4 =>
        setParts_frame i (pathParts p) q (.vdict nd) d d' dflt hupd h1 h2
          h3 h4⟩, fun hnil => ?_⟩
    rw [hnil] at hupd
    simpa [DataModel.setParts] using hupd.symm

/-- Witness for the amended claim C3: a full replace; then a successful
write at `a/b` into a tree holding a map at `a` and a sibling `z` — the
written path reads back as the converted contents and the sibling `z` reads
as before. -/
theorem claim_C3_witness :
    DataModel.update none
      [.vdict [("key", .vstr ("c")), ("valueString", .vstr ("v"))]]
      [("z", .vstr ("zz"))] = some [("c", .vstr ("v"))] ∧
    DataModel.getParts ["a", "b"]
      (.vdict [("a", .vdict [("keep", .vstr ("k")),
        ("b", .vdict [("c", .vstr ("v"))])]), ("z", .vstr ("zz"))])
      .vnone = .vdict [("c", .vstr ("v"))] ∧
    DataModel.getParts ["z"]
      (.vdict [("a", .vdict [("keep", .vstr ("k")),
        ("b", .vdict [("c", .vstr ("v"))])]), ("z", .vstr ("zz"))])
      .vnone =
    DataModel.getParts ["z"]
      (.vdict [("a", .vdict [("keep", .vstr ("k"))]), ("z", .vstr ("zz"))])
      .vnone := by
  have hc : DataModel.contentsToDict
      [.vdict [("key", .vstr ("c")), ("valueString", .vstr ("v"))]] =
      some [("c", .vstr ("v"))] := by
    simp [DataModel.contentsToDict, DataModel.contentsToDictGo, dictGet,
      dictSet, pyTruthy]
  have h1 := claim_C3_amended.1
    [.vdict [("key", .vstr ("c")), ("valueString", .vstr ("v"))]]
    [("c", .vstr ("v"))] [("z", .vstr ("zz"))] hc
  have h2 := claim_C3_amended.2 "a/b"
    [.vdict [("key", .vstr ("c")), ("valueString", .vstr ("v"))]]
    [("c", .vstr ("v"))]
    [("a", .vdict [("keep", .vstr ("k"))]), ("z", .vstr ("zz"))]
    [("a", .vdict [("keep", .vstr ("k")),
      ("b", .vdict [("c", .vstr ("v"))])]), ("z", .vstr ("zz"))]
    hc (by decide) (by decide)
    (by simp [DataModel.update, hc, DataModel.set_at_path, pathParts,
      splitSeg, DataModel.setParts, dictGet, dictSet])
  have h3 := h2.1 (by decide)
  exact ⟨h1.1, h3.1 .vnone,
    h3.2 ["z"] 0 .vnone (by decide) (by decide) rfl (by decide)⟩

/-! ### Claim C8 -/

/-- Claim C8: `render_surface` renders every component in the surface's
map, not only those reachable from `root_id` — (i) the value of `root_id`
(set, unset, or dangling) has no effect on the output; (ii) the rendering
loop is compositional over the component list, so every entry contributes
its (non-empty) rendering, concatenated in stable map order; (iii) the
results are joined inside a single surface wrapper div. -/
theorem claim_C8_renders_all_components :
    (∀ (fuel : Nat) (st : ProcState) (sid b : String) (surf : Surface)
      (r : PyVal),
      HTMLRenderer.render_surface fuel
        (dictSet st sid { surf with root_id := r }) sid b =
      HTMLRenderer.render_surface fuel (dictSet st sid surf) sid b) ∧
    (∀ (fuel : Nat) (l1 l2 cmap : List (String × PyVal)) (dm : PyDict)
      (b h1 h2 : String),
      HTMLRenderer.render_parts fuel l1 cmap dm b = .ok h1 →
      HTMLRenderer.render_parts fuel l2 cmap dm b = .ok h2 →
      HTMLRenderer.render_parts fuel (l1 ++ l2) cmap dm b =
        .ok (h1 ++ h2)) ∧
    (∀ (fuel : Nat) (st : ProcState) (sid b : String) (surf : Surface)
      (body : String),
      MessageProcessor.get_surface st sid = some surf →
      HTMLRenderer.render_parts fuel surf.components surf.components
        surf.data_model b = .ok body →
      HTMLRenderer.render_surface fuel st sid b =
        .ok ("<div class=\"a2ui-surface\">" ++ body ++ "</div>")) := by
  refine ⟨?_, ?_, ?_⟩
  · intro fuel st sid b surf r
    simp [HTMLRenderer.render_surface, MessageProcessor.get_surface,
      dictGet_set_self]
  · intro fuel l1
    induction l1 with
    | nil =>
        intro l2 cmap dm b h1 h2 hL hR
        simp only [HTMLRenderer.render_parts] at hL
        have : h1 = "" := (RRes.ok.inj hL).symm
        subst this
        simpa using hR
    | cons kv rest ih =>
        intro l2 cmap dm b h1 h2 hL hR
        obtain ⟨k, comp⟩ := kv
        simp only [HTMLRenderer.render_parts] at hL
        cases hc : HTMLRenderer.render_component fuel comp cmap dm b with
        | ok h =>
            simp only [hc] at hL
            cases hr : HTMLRenderer.render_parts fuel rest cmap dm b with
            | ok hs =>
                simp only [hr] at hL
                have hh1 : h1 = if h = "" then hs else h ++ hs :=
                  (RRes.ok.inj hL).symm
                have hrec := ih l2 cmap dm b hs h2 hr hR
                show HTMLRenderer.render_parts fuel
                  ((k, comp) :: (rest ++ l2)) cmap dm b = .ok (h1 ++ h2)
                simp only [HTMLRenderer.render_parts, hc, hrec]
                by_cases hh : h = "" <;>
                  simp [hh, hh1, String.append_assoc]
            | exn => simp [hr] at hL
            | nofuel => simp [hr] at hL
        | exn => simp [hc] at hL
        | nofuel => simp [hc] at hL
  · intro fuel st sid b surf body hsurf hparts
    simp [HTMLRenderer.render_surface, hsurf, hparts]

/-- A one-`Text`-component record for the claim C8 witness. -/
def c8Text : PyVal :=
  .vdict [("component", .vdict [("Text", .vdict [("text", .vstr ("hello"))])])]

/-- A `Divider` component record for the claim C8 witness. -/
def c8Divider : PyVal :=
  .vdict [("component", .vdict [("Divider", .vdict [])])]

/-- A one-component surface with the given root, for the claim C8
witness. -/
def c8Surf (r : PyVal) : Surface :=
  { surface_id := "s"
    root_id := r
    components := [("t", c8Text)]
    styles := .vdict []
    data_model := [] }

/-- Witness for claim C8: a surface with a `Text` component and a dangling
root renders the same as with no root; the rendering loop over a two-entry
map concatenates the `Text` and `Divider` renderings; and the surface
output is the wrapper around the body. -/
theorem claim_C8_witness :
    HTMLRenderer.render_surface 1 (dictSet [] "s"
        (c8Surf (.vstr ("dangling")))) "s" "b" =
      HTMLRenderer.render_surface 1 (dictSet [] "s" (c8Surf .vnone))
        "s" "b" ∧
    HTMLRenderer.render_parts 1 ([("t", c8Text)] ++ [("d", c8Divider)])
      [] [] "b" =
      .ok ("<p class=\"a2ui-text\">hello</p>" ++
        "<hr class=\"a2ui-divider\" />") ∧
    HTMLRenderer.render_surface 1 [("s", c8Surf (.vstr ("dangling")))]
      "s" "b" =
      .ok ("<div class=\"a2ui-surface\">" ++
        "<p class=\"a2ui-text\">hello</p>" ++ "</div>") :=
  ⟨claim_C8_renders_all_components.1 1 [] "s" "b" (c8Surf .vnone)
      (.vstr ("dangling")),
   claim_C8_renders_all_components.2.1 1 [("t", c8Text)] [("d", c8Divider)]
      [] [] "b" "<p class=\"a2ui-text\">hello</p>"
      "<hr class=\"a2ui-divider\" />" rfl rfl,
   claim_C8_renders_all_components.2.2 1
      [("s", c8Surf (.vstr ("dangling")))] "s" "b"
      (c8Surf (.vstr ("dangling"))) "<p class=\"a2ui-text\">hello</p>"
      rfl rfl⟩

/-! ### Claim C9 -/

/-- Claim C9 counterexample: a path consisting only of slashes (`"//"`) is
truthy and differs from `"/"`, so `update` routes it to `_set_at_path`,
whose segment list is empty — a silent no-op — rather than the full-tree
replacement the claim asserts for a root-denoting path. -/
theorem claim_C9_counterexample :
    DataModel.update (some "//")
      [.vdict [("key", .vstr ("x")), ("valueString", .vstr ("v"))]]
      [("old", .vstr ("o"))] = some [("old", .vstr ("o"))] ∧
    DataModel.update none
      [.vdict [("key", .vstr ("x")), ("valueString", .vstr ("v"))]]
      [("old", .vstr ("o"))] = some [("x", .vstr ("v"))] ∧
    ([("old", PyVal.vstr ("o"))] : PyDict) ≠ [("x", PyVal.vstr ("v"))] := by
  refine ⟨?_, ?_, ?_⟩
  · simp [DataModel.update, DataModel.contentsToDict,
      DataModel.contentsToDictGo, DataModel.set_at_path, pathParts, splitSeg,
      DataModel.setParts, dictGet, dictSet, pyTruthy]
  · simp [DataModel.update, DataModel.contentsToDict,
      DataModel.contentsToDictGo, dictGet, dictSet, pyTruthy]
  · simp

/-- Claim C9 amended: empty path segments are ignored by both `update` and
`get`, and `""`, `"/"` and an absent path all trigger full-tree
replacement; `"//a"`, `"/a"` and `"a"` behave identically for both read and
write; but a non-root path whose segments are all empty (such as `"//"`)
is NOT treated as the root by `update` — the write is a silent no-op —
while `get` on it returns the whole tree. -/
theorem claim_C9_amended :
    (∀ contents nd d, DataModel.contentsToDict contents = some nd →
      DataModel.update none contents d = some nd ∧
      DataModel.update (some "") contents d = some nd ∧
      DataModel.update (some "/") contents d = some nd ∧
      DataModel.update (some "//") contents d = some d) ∧
    (∀ contents d,
      DataModel.update (some "//a") contents d =
        DataModel.update (some "a") contents d ∧
      DataModel.update (some "/a") contents d =
        DataModel.update (some "a") contents d) ∧
    (∀ d dflt,
      DataModel.get "//a" dflt d = DataModel.get "a" dflt d ∧
      DataModel.get "/a" dflt d = DataModel.get "a" dflt d ∧
      DataModel.get "//" dflt d = .vdict d) := by
  refine ⟨?_, ?_, ?_⟩
  · intro contents nd d h
    refine ⟨by simp [DataModel.update, h], by simp [DataModel.update, h],
      by simp [DataModel.update, h], ?_⟩
    have hp : pathParts "//" = [] := rfl
    simp [DataModel.update, h, DataModel.set_at_path, hp,
      DataModel.setParts]
  · intro contents d
    cases h : DataModel.contentsToDict contents with
    | none => exact ⟨by simp [DataModel.update, h], by
        simp [DataModel.update, h]⟩
    | some nd =>
        have hp1 : pathParts "//a" = ["a"] := rfl
        have hp2 : pathParts "/a" = ["a"] := rfl
        have hp3 : pathParts "a" = ["a"] := rfl
        exact ⟨by simp [DataModel.update, h, DataModel.set_at_path, hp1, hp3],
          by simp [DataModel.update, h, DataModel.set_at_path, hp2, hp3]⟩
  · intro d dflt
    exact ⟨rfl, rfl, rfl⟩

/-- Witness for the amended claim C9 at a concrete one-entry contents list
and a one-key prior tree. -/
theorem claim_C9_witness :
    DataModel.update none
      [.vdict [("key", .vstr ("x")), ("valueString", .vstr ("v"))]]
      [("old", .vstr ("o"))] = some [("x", .vstr ("v"))] ∧
    DataModel.update (some "")
      [.vdict [("key", .vstr ("x")), ("valueString", .vstr ("v"))]]
      [("old", .vstr ("o"))] = some [("x", .vstr ("v"))] ∧
    DataModel.update (some "/")
      [.vdict [("key", .vstr ("x")), ("valueString", .vstr ("v"))]]
      [("old", .vstr ("o"))] = some [("x", .vstr ("v"))] ∧
    DataModel.update (some "//")
      [.vdict [("key", .vstr ("x")), ("valueString", .vstr ("v"))]]
      [("old", .vstr ("o"))] = some [("old", .vstr ("o"))] := by
  have h := claim_C9_amended.1
    [.vdict [("key", .vstr ("x")), ("valueString", .vstr ("v"))]]
    [("x", .vstr ("v"))] [("old", .vstr ("o"))]
    (by simp [DataModel.contentsToDict, DataModel.contentsToDictGo, dictGet,
      dictSet, pyTruthy])
  exact ⟨h.1, h.2.1, h.2.2.1, h.2.2.2⟩

/-! ### Claim C6 -/

/-- Claim C6: after a full-replace `dataModelUpdate`, a `path` reference to
a slash-free key `x` resolves to the stored value, stringified; when `x` is
unset (or holds `None`, or the tree was cleared) it resolves to the
caller-supplied default, never to a string such as `"null"` or `"None"`. -/
theorem claim_C6_path_resolution :
    ∀ (contents : List PyVal) (prior d : PyDict) (x : String)
      (dflt : PyVal),
    x ≠ "" → Char.ofNat 47 ∉ x.toList →
    DataModel.update none contents prior = some d →
    ((∀ v, dictGet d x = some v → v ≠ .vnone →
        DataModel.resolve_value (.vdict [("path", .vstr x)]) dflt d =
          some (.vstr (pyStr v))) ∧
     (dictGet d x = none →
        DataModel.resolve_value (.vdict [("path", .vstr x)]) dflt d =
          some dflt) ∧
     (dictGet d x = some .vnone →
        DataModel.resolve_value (.vdict [("path", .vstr x)]) dflt d =
          some dflt) ∧
     DataModel.resolve_value (.vdict [("path", .vstr x)]) dflt
       DataModel.clear = some dflt) := by
  intro contents prior d x dflt hx hsl _
  have hp : pathParts x = [x] := pathParts_single x hx hsl
  have e1 : dictGet [("path", PyVal.vstr x)] ("literalString") = none := rfl
  have e2 : dictGet [("path", PyVal.vstr x)] ("literalNumber") = none := rfl
  have e3 : dictGet [("path", PyVal.vstr x)] ("literalBoolean") = none := rfl
  have e4 : dictGet [("path", PyVal.vstr x)] ("path") =
    some (.vstr x) := rfl
  refine ⟨?_, ?_, ?_, ?_⟩
  · intro v hv hvn
    have hg : DataModel.get x .vnone d = v := by
      simp [DataModel.get, hp, DataModel.getParts, hv]
    simp only [DataModel.resolve_value, e1, e2, e3, e4, hg]
  · intro hv
    have hg : DataModel.get x .vnone d = .vnone := by
      simp [DataModel.get, hp, DataModel.getParts, hv]
    simp only [DataModel.resolve_value, e1, e2, e3, e4, hg]
  · intro hv
    have hg : DataModel.get x .vnone d = .vnone := by
      simp [DataModel.get, hp, DataModel.getParts, hv]
    simp only [DataModel.resolve_value, e1, e2, e3, e4, hg]
  · have hg : DataModel.get x .vnone DataModel.clear = .vnone := by
      simp [DataModel.get, hp, DataModel.getParts, DataModel.clear, dictGet]
    simp only [DataModel.resolve_value, e1, e2, e3, e4, hg]

/-- Witness for claim C6: a full-replace update storing `"Rose"` under
`"x"`, a resolution of the set key, a resolution against an empty update,
and a resolution against a cleared tree. -/
theorem claim_C6_witness :
    DataModel.resolve_value (.vdict [("path", .vstr ("x"))]) (.vstr ("DF"))
      [("x", .vstr ("Rose"))] = some (.vstr "Rose") ∧
    DataModel.resolve_value (.vdict [("path", .vstr ("x"))]) (.vstr ("DF"))
      [] = some (.vstr "DF") ∧
    DataModel.resolve_value (.vdict [("path", .vstr ("x"))]) (.vstr ("DF"))
      DataModel.clear = some (.vstr "DF") := by
  have h1 := claim_C6_path_resolution
    [.vdict [("key", .vstr ("x")), ("valueString", .vstr ("Rose"))]]
    [("old", .vstr ("gone"))] [("x", .vstr ("Rose"))] "x" (.vstr ("DF"))
    (by decide) (by decide)
    (by simp [DataModel.update, DataModel.contentsToDict,
      DataModel.contentsToDictGo, dictGet, dictSet, pyTruthy])
  have h2 := claim_C6_path_resolution [] [("old", .vstr ("gone"))] [] "x"
    (.vstr ("DF")) (by decide) (by decide)
    (by simp [DataModel.update, DataModel.contentsToDict,
      DataModel.contentsToDictGo])
  exact ⟨h1.1 (.vstr ("Rose")) rfl (by simp), h2.2.1 rfl, h1.2.2.2⟩

/-! ### Claim C4 -/

/-- Claim C4 counterexample: the empty string is a surface id the processor
happily stores (a `surfaceUpdate` with `surfaceId: ""` creates it), yet
`deleteSurface` for that existing id is a no-op (`if surface_id:` rejects
the falsy empty string), so `get_surface` still finds the surface
afterwards, contradicting the claim for this existing id. -/
theorem claim_C4_counterexample :
    MessageProcessor.handle_surface_update (some "") [] [] =
      some [("", MessageProcessor.freshSurface "")] ∧
    MessageProcessor.handle_delete_surface [("surfaceId", .vstr (""))]
      [("", MessageProcessor.freshSurface "")] =
      [("", MessageProcessor.freshSurface "")] ∧
    MessageProcessor.get_surface [("", MessageProcessor.freshSurface "")] ""
      ≠ none := by
  refine ⟨rfl, rfl, ?_⟩
  simp [MessageProcessor.get_surface, dictGet]

/-- Claim C4 amended (the claim restricted to non-empty surface ids, which
is what the delete handler's truthiness test enforces): deleting an
existing surface makes `get_surface` return `None`; deleting an unknown id
leaves the whole processor state unchanged; and a `surfaceUpdate` for the
deleted id creates a fresh surface whose data model is empty and whose
component map holds exactly the newly supplied components, with default
root and styles — no residue from before the deletion. -/
theorem claim_C4_amended :
    ∀ (st : ProcState) (sid : String),
    sid ≠ "" → (st.map Prod.fst).Nodup →
    ((∀ surf, MessageProcessor.get_surface st sid = some surf →
        MessageProcessor.get_surface
          (MessageProcessor.handle_delete_surface
            [("surfaceId", .vstr sid)] st) sid = none) ∧
     (MessageProcessor.get_surface st sid = none →
        MessageProcessor.handle_delete_surface [("surfaceId", .vstr sid)] st
          = st) ∧
     (∀ comps m,
        MessageProcessor.updateComponents comps [] = some m →
        ∃ st2,
          MessageProcessor.handle_surface_update (some sid) comps
            (MessageProcessor.handle_delete_surface
              [("surfaceId", .vstr sid)] st) = some st2 ∧
          MessageProcessor.get_surface st2 sid =
            some { surface_id := sid, root_id := .vnone, components := m,
                   styles := .vdict [], data_model := [] })) := by
  intro st sid hsid hnd
  refine ⟨?_, ?_, ?_⟩
  · intro surf hsurf
    simp only [MessageProcessor.get_surface] at hsurf ⊢
    simp [MessageProcessor.handle_delete_surface, dictGet, hsid, hsurf,
      dictGet_del_self st sid hnd]
  · intro h
    simp only [MessageProcessor.get_surface] at h
    simp [MessageProcessor.handle_delete_surface, dictGet, h]
  · intro comps m hm
    have hnone : dictGet (MessageProcessor.handle_delete_surface
        [("surfaceId", .vstr sid)] st) sid = none := by
      cases hex : dictGet st sid with
      | none => simp [MessageProcessor.handle_delete_surface, dictGet, hex]
      | some surf =>
          simp [MessageProcessor.handle_delete_surface, dictGet, hex, hsid]
          exact dictGet_del_self st sid hnd
    refine ⟨dictSet (dictSet (MessageProcessor.handle_delete_surface
        [("surfaceId", .vstr sid)] st) sid
        (MessageProcessor.freshSurface sid)) sid
        { surface_id := sid, root_id := .vnone, components := m,
          styles := .vdict [], data_model := [] }, ?_, ?_⟩
    · simp [MessageProcessor.handle_surface_update, hnone,
        dictGet_set_self, MessageProcessor.freshSurface, hm]
    · simp [MessageProcessor.get_surface, dictGet_set_self]

/-- Witness for the amended claim C4 at concrete inputs: a one-surface
state, a delete of the existing id `s1`, a delete of the unknown id `s2`,
and a `surfaceUpdate` recreating `s1` with one `Text` component. -/
theorem claim_C4_witness :
    MessageProcessor.get_surface
      (MessageProcessor.handle_delete_surface [("surfaceId", .vstr ("s1"))]
        [("s1", MessageProcessor.freshSurface "s1")]) "s1" = none ∧
    MessageProcessor.handle_delete_surface [("surfaceId", .vstr ("s2"))]
      [("s1", MessageProcessor.freshSurface "s1")] =
      [("s1", MessageProcessor.freshSurface "s1")] ∧
    (∃ st2,
      MessageProcessor.handle_surface_update (some "s1")
        [.vdict [("id", .vstr ("r")),
          ("component", .vdict [("Text", .vdict [("text", .vstr ("hello"))])])]]
        (MessageProcessor.handle_delete_surface
          [("surfaceId", .vstr ("s1"))]
          [("s1", MessageProcessor.freshSurface "s1")]) = some st2 ∧
      MessageProcessor.get_surface st2 "s1" =
        some { surface_id := "s1", root_id := .vnone,
               components := [("r", .vdict [("id", .vstr ("r")),
                 ("component", .vdict [("Text",
                   .vdict [("text", .vstr ("hello"))])])])],
               styles := .vdict [], data_model := [] }) := by
  have h1 := claim_C4_amended [("s1", MessageProcessor.freshSurface "s1")]
    "s1" (by decide) (by simp)
  have h2 := claim_C4_amended [("s1", MessageProcessor.freshSurface "s1")]
    "s2" (by decide) (by simp)
  exact ⟨h1.1 (MessageProcessor.freshSurface "s1") rfl, h2.2.1 rfl,
    h1.2.2 [.vdict [("id", .vstr ("r")),
      ("component", .vdict [("Text", .vdict [("text", .vstr ("hello"))])])]]
      [("r", .vdict [("id", .vstr ("r")),
        ("component", .vdict [("Text", .vdict [("text", .vstr ("hello"))])])])]
      rfl⟩

end A2UI
